import Mathlib

/-!
Verification of the pygame ray tracer (camera.py, main.py, objects3d.py).

The geometry and shading code is embedded shallowly over the rationals:
Python floats are idealised as exact rational arithmetic, and the float
square root (used by normalize, magnitude and the sphere test) is modelled
by an executable integer square root that is exact on perfect squares.
-/

set_option maxRecDepth 100000
set_option maxHeartbeats 1000000
set_option allowUnsafeReducibility true

attribute [semireducible] Rat.add Rat.sub Rat.mul Rat.inv Rat.neg Rat.ofScientific

/-- 3D vector of rationals, modelling pygame.math.Vector3. -/
@[ext]
structure Vec3 where
  x : ℚ
  y : ℚ
  z : ℚ
deriving DecidableEq, Repr

def Vec3.add (v w : Vec3) : Vec3 := ⟨v.x + w.x, v.y + w.y, v.z + w.z⟩

def Vec3.sub (v w : Vec3) : Vec3 := ⟨v.x - w.x, v.y - w.y, v.z - w.z⟩

def Vec3.neg (v : Vec3) : Vec3 := ⟨-v.x, -v.y, -v.z⟩

def Vec3.smul (c : ℚ) (v : Vec3) : Vec3 := ⟨c * v.x, c * v.y, c * v.z⟩

instance : Add Vec3 := ⟨Vec3.add⟩

instance : Sub Vec3 := ⟨Vec3.sub⟩

instance : Neg Vec3 := ⟨Vec3.neg⟩

instance : SMul ℚ Vec3 := ⟨Vec3.smul⟩

instance : Zero Vec3 := ⟨⟨0, 0, 0⟩⟩

/-- Dot product. -/
def Vec3.dot (v w : Vec3) : ℚ := v.x * w.x + v.y * w.y + v.z * w.z

/-- Cross product. -/
def Vec3.cross (v w : Vec3) : Vec3 :=
  ⟨v.y * w.z - v.z * w.y, v.z * w.x - v.x * w.z, v.x * w.y - v.y * w.x⟩

/-- Squared magnitude (pygame magnitude_squared). -/
def Vec3.magSq (v : Vec3) : ℚ := v.dot v

/-- Integer square root by base-4 digit recursion; the first argument is
explicit fuel so that the recursion is structural. -/
def sqrtAux : Nat → Nat → Nat
  | 0, _ => 0
  | fuel + 1, n =>
    if n = 0 then 0 else
      let r := 2 * sqrtAux fuel (n / 4)
      if (r + 1) * (r + 1) ≤ n then r + 1 else r

/-- Integer (floor) square root. -/
def sqrtNat (n : Nat) : Nat := sqrtAux n n

/-- Embed a natural number as a rational directly by its numerator
(avoids the slow generic cast during kernel evaluation). -/
def natToRat (n : Nat) : ℚ := ⟨Int.ofNat n, 1, Nat.one_ne_zero, Nat.coprime_one_right _⟩

/-- Rational square root model: exact on squares of rationals, some junk
value elsewhere (the source only ever relies on exact cases). -/
def ratSqrt (q : ℚ) : ℚ := natToRat (sqrtNat q.num.toNat) / natToRat (sqrtNat q.den)

/-- Magnitude (pygame magnitude), via the square-root model. -/
def Vec3.length (v : Vec3) : ℚ := ratSqrt v.magSq

/-- pygame Vector3.normalize: divide by the magnitude. -/
def Vec3.normalize (v : Vec3) : Vec3 := (1 / v.length) • v

/-- Element-wise (Hadamard) product, main.py hadamard. -/
def hadamard (v w : Vec3) : Vec3 := ⟨v.x * w.x, v.y * w.y, v.z * w.z⟩

/-- main.py clamp_vec3 with the default bounds 0 and 1. -/
def clampVec3 (v : Vec3) : Vec3 :=
  ⟨max 0 (min v.x 1), max 0 (min v.y 1), max 0 (min v.z 1)⟩

/-- Material dictionary from main.py: ambient, diffuse, specular colors and
shininess exponent (the source stores integral float exponents; modelled
as a natural number). -/
structure Material where
  ambi : Vec3
  diff : Vec3
  spec : Vec3
  hard : ℕ
deriving DecidableEq, Repr

/-- objects3d.py Ray: position and direction.  The constructor mkRay
normalizes the direction. -/
structure Ray where
  pos : Vec3
  dir : Vec3
deriving DecidableEq, Repr

/-- Ray.__init__: stores the normalized direction. -/
def mkRay (pos dir : Vec3) : Ray := ⟨pos, dir.normalize⟩

/-- Ray.get_point. -/
def rayPoint (r : Ray) (t : ℚ) : Vec3 := r.pos + t • r.dir

/-- objects3d.py RayIntersection.  The source keeps a reference to the hit
object; the shader only ever reads that object's material, so the record
stores the material. -/
structure RayIntersection where
  ray : Ray
  matl : Material
  pos : Vec3
  normal : Vec3
  t : ℚ
deriving DecidableEq, Repr

/-- RayIntersection.__init__: stores the normalized normal. -/
def mkInter (ray : Ray) (matl : Material) (pos normal : Vec3) (t : ℚ) : RayIntersection :=
  ⟨ray, matl, pos, normal.normalize, t⟩

/-- objects3d.py Plane: material, point, normal and the precomputed signed
distance d. -/
structure Plane where
  matl : Material
  pos : Vec3
  normal : Vec3
  d : ℚ
deriving DecidableEq, Repr

/-- Plane.__init__: normalizes the normal and precomputes d = pos·normal. -/
def mkPlane (matl : Material) (pos normal : Vec3) : Plane :=
  ⟨matl, pos, normal.normalize, pos.dot normal.normalize⟩

/-- Plane.ray_test. -/
def planeRayTest (p : Plane) (ray : Ray) : List RayIntersection :=
  if p.normal.dot ray.dir = 0 then []
  else
    let t := (p.d - ray.pos.dot p.normal) / p.normal.dot ray.dir
    if 0 < t then [mkInter ray p.matl (rayPoint ray t) p.normal t] else []

/-- C7 helper: the plane test value as the source computes it. -/
def planeT (p : Plane) (ray : Ray) : ℚ := (p.d - ray.pos.dot p.normal) / p.normal.dot ray.dir

/-- objects3d.py Sphere: material, center, radius and precomputed radius². -/
structure Sphere where
  matl : Material
  pos : Vec3
  radius : ℚ
  radius2 : ℚ
deriving DecidableEq, Repr

/-- Sphere.__init__. -/
def mkSphere (matl : Material) (pos : Vec3) (radius : ℚ) : Sphere :=
  ⟨matl, pos, radius, radius ^ 2⟩

/-- Sphere.ray_test local variable tca: component of center − origin
along the ray. -/
def sphereTca (s : Sphere) (ray : Ray) : ℚ := (s.pos - ray.pos).dot ray.dir

/-- Sphere.ray_test local variable d2: squared perpendicular distance. -/
def sphereD2 (s : Sphere) (ray : Ray) : ℚ :=
  (s.pos - ray.pos).magSq - sphereTca s ray ^ 2

/-- Sphere.ray_test local variable thc. -/
def sphereThc (s : Sphere) (ray : Ray) : ℚ := ratSqrt (s.radius2 - sphereD2 s ray)

/-- Sphere.ray_test candidate root t0 = tca − thc. -/
def sphereT0 (s : Sphere) (ray : Ray) : ℚ := sphereTca s ray - sphereThc s ray

/-- Sphere.ray_test candidate root t1 = tca + thc. -/
def sphereT1 (s : Sphere) (ray : Ray) : ℚ := sphereTca s ray + sphereThc s ray

/-- Sphere.ray_test final parameter value: the roots are ordered
(swapped if t0 > t1), and the larger is substituted when the smaller is
negative. -/
def sphereT (s : Sphere) (ray : Ray) : ℚ :=
  if sphereT1 s ray < sphereT0 s ray then
    if sphereT1 s ray < 0 then sphereT0 s ray else sphereT1 s ray
  else
    if sphereT0 s ray < 0 then sphereT1 s ray else sphereT0 s ray

/-- Sphere.ray_test. -/
def sphereRayTest (s : Sphere) (ray : Ray) : List RayIntersection :=
  if sphereTca s ray < 0 then []
  else if s.radius2 < sphereD2 s ray then []
  else if sphereT s ray < 0 then []
  else
    [mkInter ray s.matl (rayPoint ray (sphereT s ray))
      (rayPoint ray (sphereT s ray) - s.pos) (sphereT s ray)]

/-- objects3d.py Box: material, center, per-axis extents and three mutable
axis vectors (initially the global basis). -/
structure Box where
  matl : Material
  pos : Vec3
  extents : Vec3
  a0 : Vec3
  a1 : Vec3
  a2 : Vec3
deriving DecidableEq, Repr

/-- Box.__init__: axes start as the global X/Y/Z basis. -/
def mkBox (matl : Material) (pos extents : Vec3) : Box :=
  ⟨matl, pos, extents, ⟨1, 0, 0⟩, ⟨0, 1, 0⟩, ⟨0, 0, 1⟩⟩

/-- The six face planes (normal, d) of a Box, in the iteration order of
Box.ray_test: for each axis, first the − face, then the + face. -/
def boxFaces (b : Box) : List (Vec3 × ℚ) :=
  [ (-b.a0, (b.pos - b.extents.x • b.a0).dot (-b.a0)),
    (b.a0, (b.pos + b.extents.x • b.a0).dot b.a0),
    (-b.a1, (b.pos - b.extents.y • b.a1).dot (-b.a1)),
    (b.a1, (b.pos + b.extents.y • b.a1).dot b.a1),
    (-b.a2, (b.pos - b.extents.z • b.a2).dot (-b.a2)),
    (b.a2, (b.pos + b.extents.z • b.a2).dot b.a2) ]

/-- The plane parameter computed for one face of Box.ray_test. -/
def faceT (ray : Ray) (nd : Vec3 × ℚ) : ℚ := (nd.2 - ray.pos.dot nd.1) / ray.dir.dot nd.1

/-- The local-coordinate containment test of Box.ray_test with the 1e-4
tolerance (lp = pos − p projected on the three axes). -/
def boxContains (b : Box) (p : Vec3) : Prop :=
  -b.extents.x - 1/10000 < (b.pos - p).dot b.a0 ∧ (b.pos - p).dot b.a0 < b.extents.x + 1/10000 ∧
  -b.extents.y - 1/10000 < (b.pos - p).dot b.a1 ∧ (b.pos - p).dot b.a1 < b.extents.y + 1/10000 ∧
  -b.extents.z - 1/10000 < (b.pos - p).dot b.a2 ∧ (b.pos - p).dot b.a2 < b.extents.z + 1/10000

instance (b : Box) (p : Vec3) : Decidable (boxContains b p) := by
  unfold boxContains
  exact inferInstance

/-- The body of the inner loop of Box.ray_test for one face plane: the
ZeroDivisionError handler is the parallel guard, then the t ≥ 0 test, then
the local-coordinate containment test. -/
def boxCandidate (b : Box) (ray : Ray) (nd : Vec3 × ℚ) : Option RayIntersection :=
  if ray.dir.dot nd.1 = 0 then none
  else if 0 ≤ faceT ray nd then
    if boxContains b (rayPoint ray (faceT ray nd)) then
      some (mkInter ray b.matl (rayPoint ray (faceT ray nd)) nd.1 (faceT ray nd))
    else none
  else none

/-- Box.ray_test: all accepted face hits, in face order. -/
def boxRayTest (b : Box) (ray : Ray) : List RayIntersection :=
  (boxFaces b).filterMap (boxCandidate b ray)

/-- The box axes as a function on Fin 3 (proof convenience). -/
def boxAxis (b : Box) : Fin 3 → Vec3 := ![b.a0, b.a1, b.a2]

/-- The box extents as a function on Fin 3 (proof convenience). -/
def boxExtent (b : Box) : Fin 3 → ℚ := ![b.extents.x, b.extents.y, b.extents.z]

/-- Rotation of one vector about the global X axis, parametrized by the
cosine and sine of the angle (Box.rotate_x body). -/
def rotVecX (c s : ℚ) (v : Vec3) : Vec3 := ⟨v.x, v.y * c - v.z * s, v.y * s + v.z * c⟩

/-- Rotation of one vector about the global Y axis (Box.rotate_y body). -/
def rotVecY (c s : ℚ) (v : Vec3) : Vec3 := ⟨v.x * c + v.z * s, v.y, -v.x * s + v.z * c⟩

/-- Rotation of one vector about the global Z axis (Box.rotate_z body). -/
def rotVecZ (c s : ℚ) (v : Vec3) : Vec3 := ⟨v.x * c - v.y * s, v.x * s + v.y * c, v.z⟩

/-- Box.rotate_x: rotates all three axes, leaves pos and extents alone. -/
def rotateX (c s : ℚ) (b : Box) : Box :=
  { b with a0 := rotVecX c s b.a0, a1 := rotVecX c s b.a1, a2 := rotVecX c s b.a2 }

/-- Box.rotate_y. -/
def rotateY (c s : ℚ) (b : Box) : Box :=
  { b with a0 := rotVecY c s b.a0, a1 := rotVecY c s b.a1, a2 := rotVecY c s b.a2 }

/-- Box.rotate_z. -/
def rotateZ (c s : ℚ) (b : Box) : Box :=
  { b with a0 := rotVecZ c s b.a0, a1 := rotVecZ c s b.a1, a2 := rotVecZ c s b.a2 }

/-- One rotation call, carrying the cosine and sine of its angle (the
source calls cos/sin on a float angle; the embedding carries the pair,
constrained to the unit circle where a claim needs it). -/
inductive Rot where
  | rx (c s : ℚ)
  | ry (c s : ℚ)
  | rz (c s : ℚ)
deriving DecidableEq, Repr

def applyRot (r : Rot) (b : Box) : Box :=
  match r with
  | .rx c s => rotateX c s b
  | .ry c s => rotateY c s b
  | .rz c s => rotateZ c s b

/-- A sequence of rotation calls, applied in order. -/
def applyRots (rs : List Rot) (b : Box) : Box := rs.foldl (fun b r => applyRot r b) b

/-- The rotation pair is on the unit circle: cos² + sin² = 1. -/
def unitRot (r : Rot) : Prop :=
  match r with
  | .rx c s => c ^ 2 + s ^ 2 = 1
  | .ry c s => c ^ 2 + s ^ 2 = 1
  | .rz c s => c ^ 2 + s ^ 2 = 1

/-- The three axes of a box are mutually orthonormal. -/
def orthonormalAxes (b : Box) : Prop :=
  b.a0.dot b.a0 = 1 ∧ b.a1.dot b.a1 = 1 ∧ b.a2.dot b.a2 = 1 ∧
  b.a0.dot b.a1 = 0 ∧ b.a0.dot b.a2 = 0 ∧ b.a1.dot b.a2 = 0

instance (r : Rot) : Decidable (unitRot r) := by
  cases r <;> (unfold unitRot; exact inferInstance)

instance (b : Box) : Decidable (orthonormalAxes b) := by
  unfold orthonormalAxes
  exact inferInstance

/-- Composition of (cosine, sine) pairs by the angle-addition formulas:
the pair of the sum of the angles. -/
def composeCS (ps : List (ℚ × ℚ)) : ℚ × ℚ :=
  ps.foldl (fun a p => (a.1 * p.1 - a.2 * p.2, a.2 * p.1 + a.1 * p.2)) (1, 0)

/-- objects3d.py Triangle. -/
structure Triangle where
  matl : Material
  a : Vec3
  b : Vec3
  c : Vec3
deriving DecidableEq, Repr

/-- Triangle.ray_test: plane intersection then barycentric-area
containment with the 1.0001 relative tolerance. -/
def triRayTest (tr : Triangle) (ray : Ray) : List RayIntersection :=
  let ab := tr.b - tr.a
  let ac := tr.c - tr.a
  let normal := (ab.cross ac).normalize
  let dp := normal.dot ray.dir
  if dp = 0 then []
  else
    let t := (normal.dot tr.a - ray.pos.dot normal) / dp
    if t < 0 then []
    else
      let p := rayPoint ray t
      let ap := p - tr.a
      let areaAbc := (ab.cross ac).length / 2
      let areaAbp := (ab.cross ap).length / 2
      let areaApc := (ap.cross ac).length / 2
      let areaPbc := ((tr.b - p).cross (tr.c - p)).length / 2
      if (areaAbp + areaApc + areaPbc) / areaAbc ≤ 10001/10000 then
        [mkInter ray tr.matl p normal t]
      else []

/-- objects3d.py flatten. -/
def flattenL {α : Type} : List (List α) → List α
  | [] => []
  | l :: ls => l ++ flattenL ls

/-- objects3d.py TriangleMesh after construction: material, bounding box
and owned triangles. -/
structure TriangleMesh where
  matl : Material
  box : Box
  tris : List Triangle
deriving DecidableEq, Repr

/-- TriangleMesh.ray_test: bounding-box rejection, then the concatenation
of all triangle results. -/
def meshRayTest (m : TriangleMesh) (ray : Ray) : List RayIntersection :=
  match boxRayTest m.box ray with
  | [] => []
  | _ :: _ => flattenL (m.tris.map (fun tr => triRayTest tr ray))

/-- One record of a mesh source file, already split into tokens: a vertex
line or a face line (1-indexed integer vertex references). -/
inductive ObjRec where
  | vert (v : Vec3)
  | face (i j k : ℤ)
deriving DecidableEq, Repr

/-- Python list indexing semantics: nonnegative indices from the front,
negative indices from the back, IndexError (none) outside. -/
def pyGet {α : Type} (l : List α) (i : ℤ) : Option α :=
  if 0 ≤ i then l.get? i.toNat
  else if (-i).toNat ≤ l.length then l.get? (l.length - (-i).toNat)
  else none

/-- TriangleMesh.__init__ face branch: verts[i0], verts[i1], verts[i2]
with i0 = i − 1 and so on; any IndexError aborts construction. -/
def processFace (matl : Material) (verts : List Vec3) (i j k : ℤ) : Option Triangle :=
  match pyGet verts (i - 1), pyGet verts (j - 1), pyGet verts (k - 1) with
  | some a, some b, some c => some ⟨matl, a, b, c⟩
  | _, _, _ => none

/-- TriangleMesh.__init__ line loop: vertices are offset and accumulated,
faces index the vertices seen so far. -/
def buildAux (matl : Material) (offset : Vec3) :
    List Vec3 → List Triangle → List ObjRec → Option (List Vec3 × List Triangle)
  | verts, tris, [] => some (verts, tris)
  | verts, tris, ObjRec.vert v :: rest => buildAux matl offset (verts ++ [v + offset]) tris rest
  | verts, tris, ObjRec.face i j k :: rest =>
    match processFace matl verts i j k with
    | none => none
    | some tr => buildAux matl offset verts (tris ++ [tr]) rest

/-- TriangleMesh triangle construction from a mesh source. -/
def buildTris (matl : Material) (offset : Vec3) (recs : List ObjRec) :
    Option (List Vec3 × List Triangle) :=
  buildAux matl offset [] [] recs

/-- The polymorphic primitive set of the scene (duck typing in the
source). -/
inductive SceneObject where
  | plane (p : Plane)
  | sphere (s : Sphere)
  | box (b : Box)
  | tri (t : Triangle)
  | mesh (m : TriangleMesh)
deriving DecidableEq, Repr

/-- The duck-typed ray_test dispatch. -/
def objRayTest (o : SceneObject) (ray : Ray) : List RayIntersection :=
  match o with
  | .plane p => planeRayTest p ray
  | .sphere s => sphereRayTest s ray
  | .box b => boxRayTest b ray
  | .tri t => triRayTest t ray
  | .mesh m => meshRayTest m ray

/-- camera.py Camera: the stored state derived by __init__ (the
constructor itself involves tan of the field of view, an external float
computation; the claims only concern the stored state and
get_pixel_pos_3d). -/
structure Camera where
  pos : Vec3
  xAxis : Vec3
  yAxis : Vec3
  zAxis : Vec3
  viewHeight : ℚ
  viewWidth : ℚ
  viewOrigin : Vec3
deriving DecidableEq, Repr

/-- Camera.get_pixel_pos_3d.  The screen width and height are read from
config.py (not part of the sources; modelled from the spec as explicit
arguments).  Python raises ZeroDivisionError when the denominator
screenWidth − 1 (or screenHeight − 1) is zero, modelled as none. -/
def getPixelPos3d (cam : Camera) (px py : ℕ) (w h : ℕ) : Option Vec3 :=
  if (w : ℚ) - 1 = 0 ∨ (h : ℚ) - 1 = 0 then none
  else
    let percX := (px : ℚ) / ((w : ℚ) - 1)
    let percY := (py : ℚ) / ((h : ℚ) - 1)
    some (cam.viewOrigin + (cam.viewWidth * percX) • cam.xAxis
      - (cam.viewHeight * percY) • cam.yAxis)

/-- A point light from main.py: position, diffuse and specular colors. -/
structure Light where
  pos : Vec3
  diff : Vec3
  spec : Vec3
deriving DecidableEq, Repr

/-- Python min() over a nonempty intersection list under the __lt__ of
RayIntersection: the first element of least t. -/
def pyMin (h : RayIntersection) (t : List RayIntersection) : RayIntersection :=
  t.foldl (fun best x => if x.t < best.t then x else best) h

/-- The shadow loop of draw_pixel (main.py lines 76-87): scans the objects
with the shadow ray; whenever an object reports hits it REBINDS the
variable closest to the nearest shadow hit, and sets the shadow flag
(and breaks) when that hit is closer than the light. -/
def shadowScan (objects : List SceneObject) (closest0 : RayIntersection)
    (sray : Ray) (distSq : ℚ) : RayIntersection × Bool :=
  objects.foldl
    (fun st obj =>
      if st.2 then st
      else
        match objRayTest obj sray with
        | [] => st
        | h :: tl =>
          let c := pyMin h tl
          (c, decide (c.t ^ 2 < distSq)))
    (closest0, false)

/-- light_dir of draw_pixel: normalized vector from the hit point to the
light. -/
def shadeLightDir (hit : RayIntersection) (light : Light) : Vec3 :=
  (light.pos - hit.pos).normalize

/-- diff_strength of draw_pixel. -/
def shadeDiffStrength (hit : RayIntersection) (light : Light) : ℚ :=
  (shadeLightDir hit light).dot hit.normal

/-- diff_color of draw_pixel. -/
def shadeDiffColor (hit : RayIntersection) (light : Light) : Vec3 :=
  if 0 < shadeDiffStrength hit light then
    shadeDiffStrength hit light • hadamard light.diff hit.matl.diff
  else 0

/-- reflect_dir of draw_pixel (computed from diff_strength even when the
latter is not positive). -/
def shadeReflectDir (hit : RayIntersection) (light : Light) : Vec3 :=
  (2 * shadeDiffStrength hit light) • hit.normal - shadeLightDir hit light

/-- camera_dir of draw_pixel. -/
def shadeCameraDir (cameraPos : Vec3) (hit : RayIntersection) : Vec3 :=
  (cameraPos - hit.pos).normalize

/-- spec_strength of draw_pixel. -/
def shadeSpecStrength (cameraPos : Vec3) (hit : RayIntersection) (light : Light) : ℚ :=
  (shadeCameraDir cameraPos hit).dot (shadeReflectDir hit light)

/-- spec_color of draw_pixel. -/
def shadeSpecColor (cameraPos : Vec3) (hit : RayIntersection) (light : Light) : Vec3 :=
  if 0 < shadeSpecStrength cameraPos hit light then
    (shadeSpecStrength cameraPos hit light ^ hit.matl.hard) • hadamard light.spec hit.matl.spec
  else 0

/-- The shadow ray of draw_pixel: origin nudged by 1e-4 along the normal,
direction toward the light. -/
def shadeShadowRay (hit : RayIntersection) (light : Light) : Ray :=
  mkRay (hit.pos + ((1:ℚ)/10000) • hit.normal) (shadeLightDir hit light)

/-- One iteration of the light loop of draw_pixel (main.py lines 43-89),
threading the state (closest, lit_color) exactly as the source does:
all shading quantities are read from the CURRENT value of closest, and
the shadow scan may rebind closest for the next iteration. -/
def lightStep (cameraPos : Vec3) (objects : List SceneObject)
    (st : RayIntersection × Vec3) (light : Light) : RayIntersection × Vec3 :=
  let scan := shadowScan objects st.1 (shadeShadowRay st.1 light) (light.pos - st.1.pos).magSq
  (scan.1,
    if scan.2 then st.2
    else st.2 + shadeDiffColor st.1 light + shadeSpecColor cameraPos st.1 light)

/-- draw_pixel (main.py): the color written to the surface at (px, py),
as a rational triple in the 0..255 range.  The ambient light color comes
from config.py (not in the sources; modelled from the spec as an
argument), and the primary ray is passed in already built. -/
def shadePixel (cameraPos ambient : Vec3) (objects : List SceneObject)
    (lights : List Light) (ray : Ray) : Vec3 :=
  let hits := objects.foldl (fun acc o => acc ++ objRayTest o ray) []
  match hits with
  | [] => ⟨128, 128, 128⟩
  | h :: t =>
    let closest := pyMin h t
    let litColor :=
      (lights.foldl (fun st l => lightStep cameraPos objects st l)
        (closest, hadamard ambient closest.matl.ambi)).2
    (255 : ℚ) • clampVec3 litColor

/-- Modelled from the spec (section 4.4): the contribution of one light,
always computed from the SAME nearest primary-ray intersection (the
reference behavior the spec describes, used to compare against the
source's draw_pixel which rebinds its closest variable). -/
def lightContribFixed (cameraPos : Vec3) (objects : List SceneObject)
    (hit : RayIntersection) (light : Light) : Vec3 :=
  if (shadowScan objects hit (shadeShadowRay hit light) (light.pos - hit.pos).magSq).2 then 0
  else shadeDiffColor hit light + shadeSpecColor cameraPos hit light

/-- Modelled from the spec (section 4.4): per-pixel shading where every
light is shaded from the one nearest primary-ray intersection. -/
def shadePixelFixedHit (cameraPos ambient : Vec3) (objects : List SceneObject)
    (lights : List Light) (ray : Ray) : Vec3 :=
  let hits := objects.foldl (fun acc o => acc ++ objRayTest o ray) []
  match hits with
  | [] => ⟨128, 128, 128⟩
  | h :: t =>
    let closest := pyMin h t
    let litColor :=
      lights.foldl (fun c l => c + lightContribFixed cameraPos objects closest l)
        (hadamard ambient closest.matl.ambi)
    (255 : ℚ) • clampVec3 litColor

theorem sqrtAux_bounds : ∀ (fuel n : Nat), n < 4 ^ fuel →
    sqrtAux fuel n * sqrtAux fuel n ≤ n ∧ n < (sqrtAux fuel n + 1) * (sqrtAux fuel n + 1) := by
  intro fuel
  induction fuel with
  | zero =>
    intro n hn
    simp [pow_zero] at hn
    subst hn
    simp [sqrtAux]
  | succ fuel ih =>
    intro n hn
    by_cases h0 : n = 0
    · subst h0; simp [sqrtAux]
    · have hdiv : n / 4 < 4 ^ fuel := by
        have h4 : (0:Nat) < 4 := by norm_num
        rw [Nat.div_lt_iff_lt_mul h4]
        calc n < 4 ^ (fuel + 1) := hn
          _ = 4 ^ fuel * 4 := by ring
      obtain ⟨hlo, hhi⟩ := ih (n / 4) hdiv
      set r := 2 * sqrtAux fuel (n / 4) with hr
      have hrlo : r * r ≤ n := by
        have h1 : r * r = 4 * (sqrtAux fuel (n / 4) * sqrtAux fuel (n / 4)) := by
          rw [hr]; ring
        have h2 : 4 * (sqrtAux fuel (n / 4) * sqrtAux fuel (n / 4)) ≤ 4 * (n / 4) :=
          Nat.mul_le_mul_left 4 hlo
        have h3 : 4 * (n / 4) ≤ n := Nat.mul_div_le n 4
        omega
      have hrhi : n < (r + 2) * (r + 2) := by
        have h1 : n / 4 + 1 ≤ (sqrtAux fuel (n / 4) + 1) * (sqrtAux fuel (n / 4) + 1) := hhi
        have h2 : n < 4 * (n / 4) + 4 := by
          have := Nat.div_add_mod n 4
          have hm : n % 4 < 4 := Nat.mod_lt n (by norm_num)
          omega
        have h3 : (r + 2) * (r + 2) = 4 * ((sqrtAux fuel (n / 4) + 1) * (sqrtAux fuel (n / 4) + 1)) := by
          rw [hr]; ring
        have h4 : 4 * (n / 4 + 1) ≤ 4 * ((sqrtAux fuel (n / 4) + 1) * (sqrtAux fuel (n / 4) + 1)) :=
          Nat.mul_le_mul_left 4 h1
        omega
      show (sqrtAux (fuel + 1) n) * _ ≤ n ∧ n < _
      rw [show sqrtAux (fuel + 1) n =
          (if n = 0 then 0 else
            if (r + 1) * (r + 1) ≤ n then r + 1 else r) from by
        simp only [sqrtAux, hr]]
      rw [if_neg h0]
      by_cases hc : (r + 1) * (r + 1) ≤ n
      · rw [if_pos hc]
        constructor
        · exact hc
        · have : r + 1 + 1 = r + 2 := by ring
          rw [this]; exact hrhi
      · rw [if_neg hc]
        exact ⟨hrlo, by omega⟩

theorem sqrtNat_bounds (n : Nat) :
    sqrtNat n * sqrtNat n ≤ n ∧ n < (sqrtNat n + 1) * (sqrtNat n + 1) := by
  have h1 : n < 2 ^ n := Nat.lt_two_pow n
  have h2 : (2:Nat) ^ n ≤ 4 ^ n := Nat.pow_le_pow_left (by norm_num) n
  exact sqrtAux_bounds n n (lt_of_lt_of_le h1 h2)

theorem sqrtNat_sq (a : Nat) : sqrtNat (a * a) = a := by
  obtain ⟨hlo, hhi⟩ := sqrtNat_bounds (a * a)
  by_contra hne
  rcases Nat.lt_or_ge (sqrtNat (a * a)) a with h | h
  · have : sqrtNat (a * a) + 1 ≤ a := h
    have : (sqrtNat (a * a) + 1) * (sqrtNat (a * a) + 1) ≤ a * a :=
      Nat.mul_le_mul this this
    omega
  · have ha : a < sqrtNat (a * a) := lt_of_le_of_ne h (fun hh => hne hh.symm)
    have : a + 1 ≤ sqrtNat (a * a) := ha
    have : (a + 1) * (a + 1) ≤ sqrtNat (a * a) * sqrtNat (a * a) :=
      Nat.mul_le_mul this this
    nlinarith

theorem natToRat_eq (n : Nat) : natToRat n = (n : ℚ) := by
  apply Rat.ext
  · rw [Rat.num_natCast]; rfl
  · rw [Rat.den_natCast]; rfl

theorem ratSqrt_nonneg (q : ℚ) : 0 ≤ ratSqrt q := by
  unfold ratSqrt
  rw [natToRat_eq, natToRat_eq]
  apply div_nonneg <;> exact_mod_cast Nat.zero_le _

theorem ratSqrt_sq (q : ℚ) (h : 0 ≤ q) : ratSqrt (q * q) = q := by
  unfold ratSqrt
  rw [natToRat_eq, natToRat_eq]
  have hnum : (q * q).num = q.num * q.num := q.mul_self_num
  have hden : (q * q).den = q.den * q.den := q.mul_self_den
  have hq : 0 ≤ q.num := Rat.num_nonneg.mpr h
  have htn : (q * q).num.toNat = q.num.toNat * q.num.toNat := by
    rw [hnum]
    rcases Int.eq_ofNat_of_zero_le hq with ⟨m, hm⟩
    rw [hm, ← Nat.cast_mul, Int.toNat_natCast, Int.toNat_natCast]
  rw [htn, hden, sqrtNat_sq, sqrtNat_sq]
  have h1 : ((q.num.toNat : ℚ)) = (q.num : ℚ) := by
    exact_mod_cast congrArg (fun (z : ℤ) => (z : ℚ)) (Int.toNat_of_nonneg hq)
  rw [h1]
  exact Rat.num_div_den q

@[simp] theorem Vec3.add_x (v w : Vec3) : (v + w).x = v.x + w.x := rfl

@[simp] theorem Vec3.add_y (v w : Vec3) : (v + w).y = v.y + w.y := rfl

@[simp] theorem Vec3.add_z (v w : Vec3) : (v + w).z = v.z + w.z := rfl

@[simp] theorem Vec3.sub_x (v w : Vec3) : (v - w).x = v.x - w.x := rfl

@[simp] theorem Vec3.sub_y (v w : Vec3) : (v - w).y = v.y - w.y := rfl

@[simp] theorem Vec3.sub_z (v w : Vec3) : (v - w).z = v.z - w.z := rfl

@[simp] theorem Vec3.neg_x (v : Vec3) : (-v).x = -v.x := rfl

@[simp] theorem Vec3.neg_y (v : Vec3) : (-v).y = -v.y := rfl

@[simp] theorem Vec3.neg_z (v : Vec3) : (-v).z = -v.z := rfl

@[simp] theorem Vec3.smul_x (c : ℚ) (v : Vec3) : (c • v).x = c * v.x := rfl

@[simp] theorem Vec3.smul_y (c : ℚ) (v : Vec3) : (c • v).y = c * v.y := rfl

@[simp] theorem Vec3.smul_z (c : ℚ) (v : Vec3) : (c • v).z = c * v.z := rfl

@[simp] theorem Vec3.zero_x : (0 : Vec3).x = 0 := rfl

@[simp] theorem Vec3.zero_y : (0 : Vec3).y = 0 := rfl

@[simp] theorem Vec3.zero_z : (0 : Vec3).z = 0 := rfl

theorem ratSqrt_one : ratSqrt 1 = 1 := by
  have h := ratSqrt_sq 1 (by norm_num)
  simpa using h

theorem Vec3.normalize_magSq_one (v : Vec3) (h : v.magSq = 1) : v.normalize = v := by
  unfold Vec3.normalize Vec3.length
  rw [h, ratSqrt_one]
  ext <;> simp

/-- The squared magnitude of a scalar multiple. -/
theorem Vec3.magSq_smul (c : ℚ) (v : Vec3) : (c • v).magSq = c ^ 2 * v.magSq := by
  simp [Vec3.magSq, Vec3.dot]
  ring

theorem Vec3.smul_smul (a b : ℚ) (v : Vec3) : a • (b • v) = (a * b) • v := by
  ext <;> simp <;> ring

theorem Vec3.smul_dot (c : ℚ) (v w : Vec3) : (c • v).dot w = c * v.dot w := by
  simp [Vec3.dot]
  ring

/-- Normalizing (-r) • d for a unit vector d and positive r gives -d. -/
theorem Vec3.normalize_neg_smul_unit (r : ℚ) (d : Vec3) (hr : 0 < r) (hd : d.magSq = 1) :
    ((-r) • d).normalize = -d := by
  unfold Vec3.normalize Vec3.length
  rw [Vec3.magSq_smul, hd, mul_one, show (-r) ^ 2 = r * r from by ring,
    ratSqrt_sq r (le_of_lt hr)]
  ext <;> simp <;> field_simp

/-- C7: For every Plane (point pos, unit normal n, d = pos·n) and every
ray: if n·dir = 0 the test returns the empty list (coplanar rays
included); otherwise it returns the single hit at
t = (d − origin·n)/(dir·n) exactly when t > 0, and the empty list when
t ≤ 0. -/
theorem planeRayTest_spec (p : Plane) (ray : Ray)
    (hd : p.d = p.pos.dot p.normal) (hn : p.normal.magSq = 1) :
    (p.normal.dot ray.dir = 0 → planeRayTest p ray = []) ∧
    (p.normal.dot ray.dir ≠ 0 →
      (0 < planeT p ray →
        planeRayTest p ray =
          [⟨ray, p.matl, rayPoint ray (planeT p ray), p.normal, planeT p ray⟩]) ∧
      (planeT p ray ≤ 0 → planeRayTest p ray = [])) := by
  refine ⟨fun hpar => ?_, fun hnpar => ⟨fun hpos => ?_, fun hneg => ?_⟩⟩
  · unfold planeRayTest
    rw [if_pos hpar]
  · unfold planeRayTest
    rw [if_neg hnpar]
    change (if 0 < planeT p ray then
      [mkInter ray p.matl (rayPoint ray (planeT p ray)) p.normal (planeT p ray)] else []) = _
    rw [if_pos hpos]
    unfold mkInter
    rw [Vec3.normalize_magSq_one p.normal hn]
  · unfold planeRayTest
    rw [if_neg hnpar]
    change (if 0 < planeT p ray then
      [mkInter ray p.matl (rayPoint ray (planeT p ray)) p.normal (planeT p ray)] else []) = _
    rw [if_neg (not_lt.mpr hneg)]

/-- Witness for C7: a plane with unit normal (0,1,0) through (0,1,0);
a parallel ray reports nothing, a ray straight up hits at t = 1, a ray
straight down reports nothing. -/
theorem planeRayTest_spec_witness :
    planeRayTest (mkPlane ⟨⟨0,0,0⟩, ⟨1,0,0⟩, ⟨1,1,1⟩, 2⟩ ⟨0,1,0⟩ ⟨0,1,0⟩)
      (mkRay ⟨0,0,0⟩ ⟨1,0,0⟩) = [] ∧
    planeRayTest (mkPlane ⟨⟨0,0,0⟩, ⟨1,0,0⟩, ⟨1,1,1⟩, 2⟩ ⟨0,1,0⟩ ⟨0,1,0⟩)
      (mkRay ⟨0,0,0⟩ ⟨0,1,0⟩) =
      [⟨mkRay ⟨0,0,0⟩ ⟨0,1,0⟩, ⟨⟨0,0,0⟩, ⟨1,0,0⟩, ⟨1,1,1⟩, 2⟩, ⟨0,1,0⟩, ⟨0,1,0⟩, 1⟩] ∧
    planeRayTest (mkPlane ⟨⟨0,0,0⟩, ⟨1,0,0⟩, ⟨1,1,1⟩, 2⟩ ⟨0,1,0⟩ ⟨0,1,0⟩)
      (mkRay ⟨0,0,0⟩ ⟨0,-1,0⟩) = [] := by
  refine ⟨(planeRayTest_spec _ _ (by decide) (by decide)).1 (by decide), ?_, ?_⟩
  · have h := ((planeRayTest_spec (mkPlane ⟨⟨0,0,0⟩, ⟨1,0,0⟩, ⟨1,1,1⟩, 2⟩ ⟨0,1,0⟩ ⟨0,1,0⟩)
      (mkRay ⟨0,0,0⟩ ⟨0,1,0⟩) (by decide) (by decide)).2 (by decide)).1 (by decide)
    rw [h]
    decide
  · exact ((planeRayTest_spec _ _ (by decide) (by decide)).2 (by decide)).2 (by decide)

/-- C5: For a ray aimed straight at a sphere center from distance
D > radius the test returns exactly one hit with t = D − radius and
normal −dir; a ray with tca < 0 reports nothing; a ray with d² > radius²
reports nothing; and when both candidate roots are negative nothing is
reported. -/
theorem sphereRayTest_spec (s : Sphere) (ray : Ray) (hr2 : s.radius2 = s.radius ^ 2) :
    (∀ D : ℚ, ray.dir.magSq = 1 → s.pos - ray.pos = D • ray.dir →
      0 < s.radius → s.radius < D →
      sphereRayTest s ray =
        [⟨ray, s.matl, rayPoint ray (D - s.radius), -ray.dir, D - s.radius⟩]) ∧
    (sphereTca s ray < 0 → sphereRayTest s ray = []) ∧
    (s.radius ^ 2 < sphereD2 s ray → sphereRayTest s ray = []) ∧
    (sphereT0 s ray < 0 ∧ sphereT1 s ray < 0 → sphereRayTest s ray = []) := by
  refine ⟨?_, ?_, ?_, ?_⟩
  · intro D hdir hL hr hD
    have htca : sphereTca s ray = D := by
      unfold sphereTca
      rw [hL, Vec3.smul_dot]
      rw [show ray.dir.dot ray.dir = ray.dir.magSq from rfl, hdir, mul_one]
    have hd2 : sphereD2 s ray = 0 := by
      unfold sphereD2
      rw [htca, hL, Vec3.magSq_smul, hdir]
      ring
    have hthc : sphereThc s ray = s.radius := by
      unfold sphereThc
      rw [hd2, sub_zero, hr2, sq, ratSqrt_sq _ (le_of_lt hr)]
    have hT : sphereT s ray = D - s.radius := by
      unfold sphereT sphereT0 sphereT1
      rw [htca, hthc]
      rw [if_neg (by linarith : ¬ (D + s.radius < D - s.radius)),
        if_neg (by linarith : ¬ (D - s.radius < 0))]
    have hpoint : rayPoint ray (D - s.radius) - s.pos = (-s.radius) • ray.dir := by
      have hx := congrArg Vec3.x hL
      have hy := congrArg Vec3.y hL
      have hz := congrArg Vec3.z hL
      simp only [Vec3.sub_x, Vec3.sub_y, Vec3.sub_z, Vec3.smul_x, Vec3.smul_y,
        Vec3.smul_z] at hx hy hz
      ext <;> simp [rayPoint] <;> ring_nf <;> ring_nf at hx hy hz <;> linarith
    unfold sphereRayTest
    rw [htca, hd2, hT, hr2]
    rw [if_neg (by linarith : ¬ (D < 0)),
      if_neg (not_lt.mpr (sq_nonneg s.radius) : ¬ (s.radius ^ 2 < 0)),
      if_neg (by linarith : ¬ (D - s.radius < 0))]
    unfold mkInter
    rw [hpoint, Vec3.normalize_neg_smul_unit s.radius ray.dir hr hdir]
  · intro h
    unfold sphereRayTest
    rw [if_pos h]
  · intro h
    unfold sphereRayTest
    by_cases htca : sphereTca s ray < 0
    · rw [if_pos htca]
    · rw [if_neg htca, if_pos (by rw [hr2]; exact h)]
  · intro h
    unfold sphereRayTest
    by_cases htca : sphereTca s ray < 0
    · rw [if_pos htca]
    · exfalso
      have hthc : 0 ≤ sphereThc s ray := ratSqrt_nonneg _
      have h1 : 0 ≤ sphereT1 s ray := by
        unfold sphereT1
        push_neg at htca
        linarith
      linarith [h.2]

/-- Witness for C5: a radius-2 sphere at (0,0,5); the ray straight at the
center from the origin hits at t = 3 with normal (0,0,−1); a ray aimed
away and a perpendicular ray miss. -/
theorem sphereRayTest_spec_witness :
    sphereRayTest (mkSphere ⟨⟨0,0,0⟩, ⟨1,0,0⟩, ⟨1,1,1⟩, 2⟩ ⟨0,0,5⟩ 2)
      (mkRay ⟨0,0,0⟩ ⟨0,0,1⟩) =
      [⟨mkRay ⟨0,0,0⟩ ⟨0,0,1⟩, ⟨⟨0,0,0⟩, ⟨1,0,0⟩, ⟨1,1,1⟩, 2⟩, ⟨0,0,3⟩, ⟨0,0,-1⟩, 3⟩] ∧
    sphereRayTest (mkSphere ⟨⟨0,0,0⟩, ⟨1,0,0⟩, ⟨1,1,1⟩, 2⟩ ⟨0,0,5⟩ 2)
      (mkRay ⟨0,0,0⟩ ⟨0,0,-1⟩) = [] ∧
    sphereRayTest (mkSphere ⟨⟨0,0,0⟩, ⟨1,0,0⟩, ⟨1,1,1⟩, 2⟩ ⟨0,0,5⟩ 2)
      (mkRay ⟨0,0,0⟩ ⟨0,1,0⟩) = [] := by
  refine ⟨?_, ?_, ?_⟩
  · have h := (sphereRayTest_spec (mkSphere ⟨⟨0,0,0⟩, ⟨1,0,0⟩, ⟨1,1,1⟩, 2⟩ ⟨0,0,5⟩ 2)
      (mkRay ⟨0,0,0⟩ ⟨0,0,1⟩) (by decide)).1 5 (by decide) (by decide)
      (by decide) (by decide)
    rw [h]
    decide
  · exact (sphereRayTest_spec _ _ (by decide)).2.1 (by decide)
  · exact (sphereRayTest_spec _ _ (by decide)).2.2.1 (by decide)

theorem planeRayTest_t_nonneg (p : Plane) (ray : Ray) :
    ∀ h ∈ planeRayTest p ray, 0 ≤ h.t := by
  intro h hmem
  unfold planeRayTest at hmem
  split_ifs at hmem with h1
  · simp at hmem
  · simp at hmem
    obtain ⟨h2, heq⟩ := hmem
    subst heq
    exact le_of_lt h2

theorem sphereRayTest_t_nonneg (s : Sphere) (ray : Ray) :
    ∀ h ∈ sphereRayTest s ray, 0 ≤ h.t := by
  intro h hmem
  unfold sphereRayTest at hmem
  split_ifs at hmem with h1 h2 h3
  · simp at hmem
  · simp at hmem
  · simp at hmem
  · simp at hmem
    subst hmem
    exact not_lt.mp h3

theorem boxRayTest_t_nonneg (b : Box) (ray : Ray) :
    ∀ h ∈ boxRayTest b ray, 0 ≤ h.t := by
  intro h hmem
  unfold boxRayTest at hmem
  rcases List.mem_filterMap.mp hmem with ⟨nd, _, hcand⟩
  unfold boxCandidate at hcand
  split_ifs at hcand with h1 h2 h3
  · simp at hcand
    subst hcand
    exact h2

theorem triRayTest_t_nonneg (tr : Triangle) (ray : Ray) :
    ∀ h ∈ triRayTest tr ray, 0 ≤ h.t := by
  intro h hmem
  unfold triRayTest at hmem
  simp only [] at hmem
  split_ifs at hmem with h1 h2 h3
  · simp at hmem
  · simp at hmem
  · simp at hmem
    subst hmem
    exact not_lt.mp h2
  · simp at hmem

theorem mem_flattenL {α : Type} (a : α) :
    ∀ (L : List (List α)), a ∈ flattenL L ↔ ∃ l ∈ L, a ∈ l := by
  intro L
  induction L with
  | nil => simp [flattenL]
  | cons l ls ih =>
    simp [flattenL, List.mem_append, ih]

theorem meshRayTest_t_nonneg (m : TriangleMesh) (ray : Ray) :
    ∀ h ∈ meshRayTest m ray, 0 ≤ h.t := by
  intro h hmem
  unfold meshRayTest at hmem
  rcases hbox : boxRayTest m.box ray with _ | ⟨hb, tb⟩
  · rw [hbox] at hmem
    simp at hmem
  · rw [hbox] at hmem
    rcases (mem_flattenL h _).mp hmem with ⟨l, hl, hhl⟩
    rcases List.mem_map.mp hl with ⟨tr, _, htr⟩
    subst htr
    exact triRayTest_t_nonneg tr ray h hhl

/-- C9: every intersection returned by any primitive variant's ray_test
has a nonnegative parameter t — hits behind the ray origin are never
reported. -/
theorem objRayTest_t_nonneg (o : SceneObject) (ray : Ray) :
    ∀ h ∈ objRayTest o ray, 0 ≤ h.t := by
  intro h hmem
  cases o with
  | plane p => exact planeRayTest_t_nonneg p ray h hmem
  | sphere s => exact sphereRayTest_t_nonneg s ray h hmem
  | box b => exact boxRayTest_t_nonneg b ray h hmem
  | tri t => exact triRayTest_t_nonneg t ray h hmem
  | mesh m => exact meshRayTest_t_nonneg m ray h hmem

/-- Witness for C9: the t = 1 hit of a concrete plane has nonnegative t. -/
theorem objRayTest_t_nonneg_witness :
    (⟨mkRay ⟨0,0,0⟩ ⟨0,1,0⟩, ⟨⟨0,0,0⟩, ⟨1,0,0⟩, ⟨1,1,1⟩, 2⟩, ⟨0,1,0⟩, ⟨0,1,0⟩, 1⟩ :
        RayIntersection) ∈
      objRayTest (SceneObject.plane (mkPlane ⟨⟨0,0,0⟩, ⟨1,0,0⟩, ⟨1,1,1⟩, 2⟩ ⟨0,1,0⟩ ⟨0,1,0⟩))
        (mkRay ⟨0,0,0⟩ ⟨0,1,0⟩) ∧
    (0:ℚ) ≤ (⟨mkRay ⟨0,0,0⟩ ⟨0,1,0⟩, ⟨⟨0,0,0⟩, ⟨1,0,0⟩, ⟨1,1,1⟩, 2⟩, ⟨0,1,0⟩, ⟨0,1,0⟩, 1⟩ :
        RayIntersection).t :=
  ⟨by decide,
    objRayTest_t_nonneg
      (SceneObject.plane (mkPlane ⟨⟨0,0,0⟩, ⟨1,0,0⟩, ⟨1,1,1⟩, 2⟩ ⟨0,1,0⟩ ⟨0,1,0⟩))
      (mkRay ⟨0,0,0⟩ ⟨0,1,0⟩)
      ⟨mkRay ⟨0,0,0⟩ ⟨0,1,0⟩, ⟨⟨0,0,0⟩, ⟨1,0,0⟩, ⟨1,1,1⟩, 2⟩, ⟨0,1,0⟩, ⟨0,1,0⟩, 1⟩
      (by decide)⟩

/-- C6: TriangleMesh.ray_test tests the bounding Box first; when the box
reports nothing the result is empty whatever the triangle list is (the
triangles are never consulted); when the box reports a hit the result is
exactly the concatenation of all owned triangles' results; and every
returned hit comes from some owned triangle (never from the bounding box
itself). -/
theorem meshRayTest_spec (m : TriangleMesh) (ray : Ray) :
    (boxRayTest m.box ray = [] → ∀ tris : List Triangle,
      meshRayTest ⟨m.matl, m.box, tris⟩ ray = []) ∧
    (boxRayTest m.box ray ≠ [] →
      meshRayTest m ray = flattenL (m.tris.map (fun tr => triRayTest tr ray))) ∧
    (∀ h ∈ meshRayTest m ray, ∃ tr ∈ m.tris, h ∈ triRayTest tr ray) := by
  refine ⟨fun hemp tris => ?_, fun hne => ?_, fun h hmem => ?_⟩
  · unfold meshRayTest
    rw [hemp]
  · unfold meshRayTest
    rcases hbox : boxRayTest m.box ray with _ | ⟨hb, tb⟩
    · exact absurd hbox hne
    · rfl
  · unfold meshRayTest at hmem
    rcases hbox : boxRayTest m.box ray with _ | ⟨hb, tb⟩
    · rw [hbox] at hmem
      simp at hmem
    · rw [hbox] at hmem
      rcases (mem_flattenL h _).mp hmem with ⟨l, hl, hhl⟩
      rcases List.mem_map.mp hl with ⟨tr, htr, heq⟩
      subst heq
      exact ⟨tr, htr, hhl⟩

/-- Witness for C6: a mesh whose unit box at the origin is missed by a
ray leaving from (5,5,5) reports nothing; a mesh whose box is hit by a
downward ray reports exactly its one triangle's hit list. -/
theorem meshRayTest_spec_witness :
    meshRayTest ⟨⟨⟨0,0,0⟩, ⟨1,0,0⟩, ⟨1,1,1⟩, 2⟩,
        mkBox ⟨⟨0,0,0⟩, ⟨1,0,0⟩, ⟨1,1,1⟩, 2⟩ ⟨0,0,0⟩ ⟨1,1,1⟩,
        [⟨⟨⟨0,0,0⟩, ⟨1,0,0⟩, ⟨1,1,1⟩, 2⟩, ⟨0,0,0⟩, ⟨1,0,0⟩, ⟨0,1,0⟩⟩]⟩
      (mkRay ⟨5,5,5⟩ ⟨0,0,1⟩) = [] ∧
    meshRayTest ⟨⟨⟨0,0,0⟩, ⟨1,0,0⟩, ⟨1,1,1⟩, 2⟩,
        mkBox ⟨⟨0,0,0⟩, ⟨1,0,0⟩, ⟨1,1,1⟩, 2⟩ ⟨0,0,0⟩ ⟨1,1,1⟩,
        [⟨⟨⟨0,0,0⟩, ⟨1,0,0⟩, ⟨1,1,1⟩, 2⟩, ⟨0,0,0⟩, ⟨1,0,0⟩, ⟨0,1,0⟩⟩]⟩
      (mkRay ⟨1/4,1/4,5⟩ ⟨0,0,-1⟩) =
      flattenL ([(⟨⟨⟨0,0,0⟩, ⟨1,0,0⟩, ⟨1,1,1⟩, 2⟩, ⟨0,0,0⟩, ⟨1,0,0⟩, ⟨0,1,0⟩⟩ :
          Triangle)].map (fun tr => triRayTest tr (mkRay ⟨1/4,1/4,5⟩ ⟨0,0,-1⟩))) := by
  constructor
  · exact (meshRayTest_spec ⟨⟨⟨0,0,0⟩, ⟨1,0,0⟩, ⟨1,1,1⟩, 2⟩,
        mkBox ⟨⟨0,0,0⟩, ⟨1,0,0⟩, ⟨1,1,1⟩, 2⟩ ⟨0,0,0⟩ ⟨1,1,1⟩, []⟩
      (mkRay ⟨5,5,5⟩ ⟨0,0,1⟩)).1 (by decide) _
  · exact (meshRayTest_spec _ _).2.1 (by decide)

theorem Vec3.add_zero_v (v : Vec3) : v + 0 = v := by
  ext <;> simp

/-- C4: in the light loop of draw_pixel, diffStrength ≤ 0 makes the
diffuse color zero, yet reflectDir and specStrength are still computed
from the same formulas, and, whenever specStrength > 0, the specular term
specStrength^shininess · (light.spec ⊙ material.spec) is still added to
the accumulated color subject only to the shadow test. -/
theorem lightStep_specular_back_facing (cameraPos : Vec3) (objects : List SceneObject)
    (st : RayIntersection × Vec3) (light : Light)
    (hds : shadeDiffStrength st.1 light ≤ 0) :
    shadeDiffColor st.1 light = 0 ∧
    shadeReflectDir st.1 light =
      (2 * shadeDiffStrength st.1 light) • st.1.normal - shadeLightDir st.1 light ∧
    shadeSpecStrength cameraPos st.1 light =
      (shadeCameraDir cameraPos st.1).dot (shadeReflectDir st.1 light) ∧
    (0 < shadeSpecStrength cameraPos st.1 light →
      shadeSpecColor cameraPos st.1 light =
        (shadeSpecStrength cameraPos st.1 light ^ st.1.matl.hard) •
          hadamard light.spec st.1.matl.spec) ∧
    (lightStep cameraPos objects st light).2 =
      (if (shadowScan objects st.1 (shadeShadowRay st.1 light)
            (light.pos - st.1.pos).magSq).2
       then st.2
       else st.2 + shadeSpecColor cameraPos st.1 light) := by
  have hdc : shadeDiffColor st.1 light = 0 := by
    unfold shadeDiffColor
    rw [if_neg (not_lt.mpr hds)]
  refine ⟨hdc, rfl, rfl, fun hss => ?_, ?_⟩
  · unfold shadeSpecColor
    rw [if_pos hss]
  · unfold lightStep
    rw [hdc]
    by_cases hsh : (shadowScan objects st.1 (shadeShadowRay st.1 light)
        (light.pos - st.1.pos).magSq).2
    · simp only [hsh, if_true]
    · simp only [hsh, if_false, Bool.false_eq_true]
      rw [Vec3.add_zero_v]

/-- Witness for C4: a surface point facing away from the light
(diffStrength = −3/5 < 0) still receives the full specular term
(here (1,1,1)) when nothing occludes; the light loop adds it. -/
theorem lightStep_specular_back_facing_witness :
    (lightStep ⟨0,-3,-4⟩ []
      (⟨mkRay ⟨0,0,-1⟩ ⟨0,0,1⟩, ⟨⟨0,0,0⟩, ⟨1,0,0⟩, ⟨1,1,1⟩, 2⟩, ⟨0,0,0⟩, ⟨0,1,0⟩, 1⟩, 0)
      ⟨⟨0,-3,4⟩, ⟨1,1,1⟩, ⟨1,1,1⟩⟩).2 = ⟨1,1,1⟩ := by
  have h := (lightStep_specular_back_facing ⟨0,-3,-4⟩ []
    (⟨mkRay ⟨0,0,-1⟩ ⟨0,0,1⟩, ⟨⟨0,0,0⟩, ⟨1,0,0⟩, ⟨1,1,1⟩, 2⟩, ⟨0,0,0⟩, ⟨0,1,0⟩, 1⟩, 0)
    ⟨⟨0,-3,4⟩, ⟨1,1,1⟩, ⟨1,1,1⟩⟩ (by decide)).2.2.2.2
  rw [h]
  decide

/-- Counterexample for C2: on the degenerate 1×1 screen the division by
screenWidth − 1 = 0 is NOT guarded; get_pixel_pos_3d fails
(ZeroDivisionError, modelled as none) at the only in-range pixel (0,0). -/
theorem getPixelPos3d_one_by_one_fails :
    getPixelPos3d ⟨⟨0,0,0⟩, ⟨1,0,0⟩, ⟨0,1,0⟩, ⟨0,0,1⟩, 2, 2, ⟨0,0,0⟩⟩ 0 0 1 1 = none := by
  decide

/-- C2 amended: for every in-range pixel on a screen with width ≥ 2 and
height ≥ 2 the operation is pure arithmetic: it returns the linear
interpolation across the view rectangle with fractions px/(w−1) and
py/(h−1), a point lying in the view plane spanned by the camera axes. -/
theorem getPixelPos3d_spec (cam : Camera) (px py w h : ℕ)
    (hw : 2 ≤ w) (hh : 2 ≤ h) (hpx : px < w) (hpy : py < h) :
    getPixelPos3d cam px py w h =
      some (cam.viewOrigin + (cam.viewWidth * ((px : ℚ) / ((w : ℚ) - 1))) • cam.xAxis
        - (cam.viewHeight * ((py : ℚ) / ((h : ℚ) - 1))) • cam.yAxis) ∧
    ∃ a b : ℚ, getPixelPos3d cam px py w h =
      some (cam.viewOrigin + a • cam.xAxis + b • cam.yAxis) := by
  have hw1 : ¬ ((w : ℚ) - 1 = 0) := by
    have : (2 : ℚ) ≤ (w : ℚ) := by exact_mod_cast hw
    intro hcon
    linarith
  have hh1 : ¬ ((h : ℚ) - 1 = 0) := by
    have : (2 : ℚ) ≤ (h : ℚ) := by exact_mod_cast hh
    intro hcon
    linarith
  have heq : getPixelPos3d cam px py w h =
      some (cam.viewOrigin + (cam.viewWidth * ((px : ℚ) / ((w : ℚ) - 1))) • cam.xAxis
        - (cam.viewHeight * ((py : ℚ) / ((h : ℚ) - 1))) • cam.yAxis) := by
    unfold getPixelPos3d
    rw [if_neg (by push_neg; exact ⟨hw1, hh1⟩)]
  refine ⟨heq, cam.viewWidth * ((px : ℚ) / ((w : ℚ) - 1)),
    -(cam.viewHeight * ((py : ℚ) / ((h : ℚ) - 1))), ?_⟩
  rw [heq]
  congr 1
  ext <;> simp <;> ring

/-- Witness for C2: on a 4×3 screen, pixel (3,2) maps to
origin + width·right − height·up for the sample camera. -/
theorem getPixelPos3d_spec_witness :
    getPixelPos3d ⟨⟨0,0,0⟩, ⟨1,0,0⟩, ⟨0,1,0⟩, ⟨0,0,1⟩, 2, 4, ⟨7,9,11⟩⟩ 3 2 4 3 =
      some ⟨7 + 4, 9 - 2, 11⟩ := by
  have h := (getPixelPos3d_spec ⟨⟨0,0,0⟩, ⟨1,0,0⟩, ⟨0,1,0⟩, ⟨0,0,1⟩, 2, 4, ⟨7,9,11⟩⟩
    3 2 4 3 (by norm_num) (by norm_num) (by norm_num) (by norm_num)).1
  rw [h]
  decide

/-- Counterexample for C3: a face line with vertex index 0 (out of the
valid range 1..3) does NOT abort construction: Python's negative
indexing makes verts[-1] pick the most recent vertex (0,1,0), and a
triangle is silently built from the substituted vertex. -/
theorem buildTris_index_zero_silent :
    buildTris ⟨⟨0,0,0⟩, ⟨0,0,0⟩, ⟨0,0,0⟩, 1⟩ ⟨0,0,0⟩
      [ObjRec.vert ⟨0,0,0⟩, ObjRec.vert ⟨1,0,0⟩, ObjRec.vert ⟨0,1,0⟩, ObjRec.face 1 2 0] =
    some ([⟨0,0,0⟩, ⟨1,0,0⟩, ⟨0,1,0⟩],
      [⟨⟨⟨0,0,0⟩, ⟨0,0,0⟩, ⟨0,0,0⟩, 1⟩, ⟨0,0,0⟩, ⟨1,0,0⟩, ⟨0,1,0⟩⟩]) := by
  decide

theorem pyGet_out {α : Type} (l : List α) (n : ℤ)
    (h : (l.length : ℤ) ≤ n ∨ n < -(l.length : ℤ)) : pyGet l n = none := by
  unfold pyGet
  rcases h with h | h
  · rw [if_pos (by omega)]
    exact List.get?_eq_none.mpr (by omega)
  · rw [if_neg (by omega), if_neg (by omega)]

theorem buildAux_append (m : Material) (off : Vec3) :
    ∀ (l1 l2 : List ObjRec) (verts : List Vec3) (tris : List Triangle),
      buildAux m off verts tris (l1 ++ l2) =
        (buildAux m off verts tris l1).bind (fun vt => buildAux m off vt.1 vt.2 l2) := by
  intro l1
  induction l1 with
  | nil => intro l2 verts tris; rfl
  | cons r rest ih =>
    intro l2 verts tris
    cases r with
    | vert v =>
      simp only [List.cons_append, buildAux]
      exact ih l2 _ _
    | face i j k =>
      simp only [List.cons_append, buildAux]
      rcases hpf : processFace m verts i j k with _ | tr
      · rfl
      · exact ih l2 _ _

/-- C3 amended: a face index i with i > V or i ≤ −V (V = number of
vertices seen when the face is processed) is fatal — the face lookup
fails and the whole construction returns none; but an index in the range
1−V..0 (index 0 in particular) does not fail: Python negative indexing
silently reads the vertex at position V−(1−i) from the front, and
construction proceeds. -/
theorem buildTris_index_semantics :
    (∀ (m : Material) (verts : List Vec3) (i j k : ℤ),
      ((verts.length : ℤ) < i ∨ i ≤ -(verts.length : ℤ) ∨
        (verts.length : ℤ) < j ∨ j ≤ -(verts.length : ℤ) ∨
        (verts.length : ℤ) < k ∨ k ≤ -(verts.length : ℤ)) →
      processFace m verts i j k = none) ∧
    (∀ (verts : List Vec3) (i : ℤ), 1 - (verts.length : ℤ) ≤ i → i ≤ 0 →
      pyGet verts (i - 1) = verts.get? (verts.length - (1 - i).toNat) ∧
      (pyGet verts (i - 1)).isSome) ∧
    (∀ (m : Material) (off : Vec3) (pre post : List ObjRec) (verts : List Vec3)
        (tris : List Triangle) (i j k : ℤ),
      buildAux m off [] [] pre = some (verts, tris) →
      processFace m verts i j k = none →
      buildTris m off (pre ++ ObjRec.face i j k :: post) = none) := by
  refine ⟨?_, ?_, ?_⟩
  · intro m verts i j k h
    rcases h with h | h | h | h | h | h
    · unfold processFace
      rw [pyGet_out verts (i - 1) (by omega)]
    · unfold processFace
      rw [pyGet_out verts (i - 1) (by omega)]
    · unfold processFace
      rw [pyGet_out verts (j - 1) (by omega)]
      rcases pyGet verts (i - 1) with _ | a <;> rfl
    · unfold processFace
      rw [pyGet_out verts (j - 1) (by omega)]
      rcases pyGet verts (i - 1) with _ | a <;> rfl
    · unfold processFace
      rw [pyGet_out verts (k - 1) (by omega)]
      rcases pyGet verts (i - 1) with _ | a <;> rcases pyGet verts (j - 1) with _ | b <;> rfl
    · unfold processFace
      rw [pyGet_out verts (k - 1) (by omega)]
      rcases pyGet verts (i - 1) with _ | a <;> rcases pyGet verts (j - 1) with _ | b <;> rfl
  · intro verts i hlo hhi
    have hneg : ¬ (0 ≤ i - 1) := by omega
    have hidx : (-(i - 1)).toNat ≤ verts.length := by omega
    have heq : pyGet verts (i - 1) = verts.get? (verts.length - (1 - i).toNat) := by
      unfold pyGet
      rw [if_neg hneg, if_pos hidx]
      congr 1
      omega
    refine ⟨heq, ?_⟩
    rw [heq]
    have hlt : verts.length - (1 - i).toNat < verts.length := by omega
    rcases List.get?_eq_get hlt with h
    rw [h]
    rfl
  · intro m off pre post verts tris i j k hpre hpf
    unfold buildTris
    rw [buildAux_append m off pre (ObjRec.face i j k :: post) [] [], hpre]
    show buildAux m off verts tris (ObjRec.face i j k :: post) = none
    simp only [buildAux]
    rw [hpf]

/-- Witness for C3 amended: index 4 on three vertices is fatal at the
face step and in the whole build; index 0 on one vertex silently reads
that vertex; and the whole build with a bad face fails. -/
theorem buildTris_index_semantics_witness :
    processFace ⟨⟨0,0,0⟩, ⟨0,0,0⟩, ⟨0,0,0⟩, 1⟩ [⟨0,0,0⟩, ⟨1,0,0⟩, ⟨0,1,0⟩] 4 1 1 = none ∧
    pyGet [(⟨5,6,7⟩ : Vec3)] ((0:ℤ) - 1) = [(⟨5,6,7⟩ : Vec3)].get? 0 ∧
    buildTris ⟨⟨0,0,0⟩, ⟨0,0,0⟩, ⟨0,0,0⟩, 1⟩ ⟨0,0,0⟩
      [ObjRec.vert ⟨0,0,0⟩, ObjRec.face 2 1 1] = none := by
  refine ⟨buildTris_index_semantics.1 _ _ 4 1 1 (by decide), ?_, ?_⟩
  · have h := (buildTris_index_semantics.2.1 [(⟨5,6,7⟩ : Vec3)] 0 (by decide) (by decide)).1
    simpa using h
  · exact buildTris_index_semantics.2.2 ⟨⟨0,0,0⟩, ⟨0,0,0⟩, ⟨0,0,0⟩, 1⟩ ⟨0,0,0⟩
      [ObjRec.vert ⟨0,0,0⟩] [] [⟨0,0,0⟩] [] 2 1 1 (by decide)
      (buildTris_index_semantics.1 _ _ 2 1 1 (by decide))

theorem rotVecX_dot (c s : ℚ) (h : c ^ 2 + s ^ 2 = 1) (u v : Vec3) :
    (rotVecX c s u).dot (rotVecX c s v) = u.dot v := by
  simp only [rotVecX, Vec3.dot]
  linear_combination (u.y * v.y + u.z * v.z) * h

theorem rotVecY_dot (c s : ℚ) (h : c ^ 2 + s ^ 2 = 1) (u v : Vec3) :
    (rotVecY c s u).dot (rotVecY c s v) = u.dot v := by
  simp only [rotVecY, Vec3.dot]
  linear_combination (u.x * v.x + u.z * v.z) * h

theorem rotVecZ_dot (c s : ℚ) (h : c ^ 2 + s ^ 2 = 1) (u v : Vec3) :
    (rotVecZ c s u).dot (rotVecZ c s v) = u.dot v := by
  simp only [rotVecZ, Vec3.dot]
  linear_combination (u.x * v.x + u.y * v.y) * h

theorem applyRot_preserves (r : Rot) (hr : unitRot r) (b : Box) (hb : orthonormalAxes b) :
    orthonormalAxes (applyRot r b) ∧ (applyRot r b).pos = b.pos ∧
    (applyRot r b).extents = b.extents := by
  obtain ⟨h00, h11, h22, h01, h02, h12⟩ := hb
  cases r with
  | rx c s =>
    refine ⟨⟨?_, ?_, ?_, ?_, ?_, ?_⟩, rfl, rfl⟩ <;>
      simp only [applyRot, rotateX] <;> rw [rotVecX_dot c s hr] <;> assumption
  | ry c s =>
    refine ⟨⟨?_, ?_, ?_, ?_, ?_, ?_⟩, rfl, rfl⟩ <;>
      simp only [applyRot, rotateY] <;> rw [rotVecY_dot c s hr] <;> assumption
  | rz c s =>
    refine ⟨⟨?_, ?_, ?_, ?_, ?_, ?_⟩, rfl, rfl⟩ <;>
      simp only [applyRot, rotateZ] <;> rw [rotVecZ_dot c s hr] <;> assumption

theorem applyRots_preserves : ∀ (rs : List Rot) (b : Box),
    (∀ r ∈ rs, unitRot r) → orthonormalAxes b →
    orthonormalAxes (applyRots rs b) ∧ (applyRots rs b).pos = b.pos ∧
    (applyRots rs b).extents = b.extents := by
  intro rs
  induction rs with
  | nil => intro b _ hb; exact ⟨hb, rfl, rfl⟩
  | cons r rest ih =>
    intro b hu hb
    have hr := hu r (List.mem_cons_self r rest)
    have hrest : ∀ r' ∈ rest, unitRot r' := fun r' hm => hu r' (List.mem_cons_of_mem r hm)
    obtain ⟨hb', hp', he'⟩ := applyRot_preserves r hr b hb
    obtain ⟨hb'', hp'', he''⟩ := ih (applyRot r b) hrest hb'
    exact ⟨hb'', by rw [show applyRots (r :: rest) b = applyRots rest (applyRot r b) from rfl,
      hp'', hp'], by rw [show applyRots (r :: rest) b = applyRots rest (applyRot r b) from rfl,
      he'', he']⟩

theorem rotVecX_compose (p q : ℚ × ℚ) (v : Vec3) :
    rotVecX q.1 q.2 (rotVecX p.1 p.2 v) =
      rotVecX (p.1 * q.1 - p.2 * q.2) (p.2 * q.1 + p.1 * q.2) v := by
  ext <;> simp [rotVecX] <;> ring

theorem rotVecY_compose (p q : ℚ × ℚ) (v : Vec3) :
    rotVecY q.1 q.2 (rotVecY p.1 p.2 v) =
      rotVecY (p.1 * q.1 - p.2 * q.2) (p.2 * q.1 + p.1 * q.2) v := by
  ext <;> simp [rotVecY] <;> ring

theorem rotVecZ_compose (p q : ℚ × ℚ) (v : Vec3) :
    rotVecZ q.1 q.2 (rotVecZ p.1 p.2 v) =
      rotVecZ (p.1 * q.1 - p.2 * q.2) (p.2 * q.1 + p.1 * q.2) v := by
  ext <;> simp [rotVecZ] <;> ring

theorem rotateX_compose (p q : ℚ × ℚ) (b : Box) :
    rotateX q.1 q.2 (rotateX p.1 p.2 b) =
      rotateX (p.1 * q.1 - p.2 * q.2) (p.2 * q.1 + p.1 * q.2) b := by
  simp only [rotateX]
  rw [rotVecX_compose p q b.a0, rotVecX_compose p q b.a1, rotVecX_compose p q b.a2]

theorem rotateY_compose (p q : ℚ × ℚ) (b : Box) :
    rotateY q.1 q.2 (rotateY p.1 p.2 b) =
      rotateY (p.1 * q.1 - p.2 * q.2) (p.2 * q.1 + p.1 * q.2) b := by
  simp only [rotateY]
  rw [rotVecY_compose p q b.a0, rotVecY_compose p q b.a1, rotVecY_compose p q b.a2]

theorem rotateZ_compose (p q : ℚ × ℚ) (b : Box) :
    rotateZ q.1 q.2 (rotateZ p.1 p.2 b) =
      rotateZ (p.1 * q.1 - p.2 * q.2) (p.2 * q.1 + p.1 * q.2) b := by
  simp only [rotateZ]
  rw [rotVecZ_compose p q b.a0, rotVecZ_compose p q b.a1, rotVecZ_compose p q b.a2]

theorem rotateX_one_zero (b : Box) : rotateX 1 0 b = b := by
  cases b
  simp [rotateX, rotVecX]

theorem rotateY_one_zero (b : Box) : rotateY 1 0 b = b := by
  cases b
  simp [rotateY, rotVecY]

theorem rotateZ_one_zero (b : Box) : rotateZ 1 0 b = b := by
  cases b
  simp [rotateZ, rotVecZ]

theorem applyRots_rx_acc : ∀ (ps : List (ℚ × ℚ)) (a : ℚ × ℚ) (b : Box),
    applyRots (ps.map (fun p => Rot.rx p.1 p.2)) (rotateX a.1 a.2 b) =
      rotateX (ps.foldl (fun a p => (a.1 * p.1 - a.2 * p.2, a.2 * p.1 + a.1 * p.2)) a).1
        (ps.foldl (fun a p => (a.1 * p.1 - a.2 * p.2, a.2 * p.1 + a.1 * p.2)) a).2 b := by
  intro ps
  induction ps with
  | nil => intro a b; rfl
  | cons p rest ih =>
    intro a b
    show applyRots (rest.map (fun p => Rot.rx p.1 p.2))
      (rotateX p.1 p.2 (rotateX a.1 a.2 b)) = _
    rw [rotateX_compose a p b]
    exact ih (a.1 * p.1 - a.2 * p.2, a.2 * p.1 + a.1 * p.2) b

theorem applyRots_ry_acc : ∀ (ps : List (ℚ × ℚ)) (a : ℚ × ℚ) (b : Box),
    applyRots (ps.map (fun p => Rot.ry p.1 p.2)) (rotateY a.1 a.2 b) =
      rotateY (ps.foldl (fun a p => (a.1 * p.1 - a.2 * p.2, a.2 * p.1 + a.1 * p.2)) a).1
        (ps.foldl (fun a p => (a.1 * p.1 - a.2 * p.2, a.2 * p.1 + a.1 * p.2)) a).2 b := by
  intro ps
  induction ps with
  | nil => intro a b; rfl
  | cons p rest ih =>
    intro a b
    show applyRots (rest.map (fun p => Rot.ry p.1 p.2))
      (rotateY p.1 p.2 (rotateY a.1 a.2 b)) = _
    rw [rotateY_compose a p b]
    exact ih (a.1 * p.1 - a.2 * p.2, a.2 * p.1 + a.1 * p.2) b

theorem applyRots_rz_acc : ∀ (ps : List (ℚ × ℚ)) (a : ℚ × ℚ) (b : Box),
    applyRots (ps.map (fun p => Rot.rz p.1 p.2)) (rotateZ a.1 a.2 b) =
      rotateZ (ps.foldl (fun a p => (a.1 * p.1 - a.2 * p.2, a.2 * p.1 + a.1 * p.2)) a).1
        (ps.foldl (fun a p => (a.1 * p.1 - a.2 * p.2, a.2 * p.1 + a.1 * p.2)) a).2 b := by
  intro ps
  induction ps with
  | nil => intro a b; rfl
  | cons p rest ih =>
    intro a b
    show applyRots (rest.map (fun p => Rot.rz p.1 p.2))
      (rotateZ p.1 p.2 (rotateZ a.1 a.2 b)) = _
    rw [rotateZ_compose a p b]
    exact ih (a.1 * p.1 - a.2 * p.2, a.2 * p.1 + a.1 * p.2) b

/-- C8: the Box rotation operators are pure rotations of the axes: any
sequence of unit-circle rotations keeps the three axes mutually
orthonormal and leaves the center and half-extents unchanged; and any
composition of rotations about one global axis whose (cos, sin) pairs
compose to (1, 0) — as for angles summing to 2π — restores the axis
vectors exactly. -/
theorem boxRotation_spec :
    (∀ (rs : List Rot) (b : Box), (∀ r ∈ rs, unitRot r) → orthonormalAxes b →
      orthonormalAxes (applyRots rs b) ∧ (applyRots rs b).pos = b.pos ∧
      (applyRots rs b).extents = b.extents) ∧
    (∀ (ps : List (ℚ × ℚ)) (b : Box), composeCS ps = (1, 0) →
      applyRots (ps.map (fun p => Rot.rx p.1 p.2)) b = b) ∧
    (∀ (ps : List (ℚ × ℚ)) (b : Box), composeCS ps = (1, 0) →
      applyRots (ps.map (fun p => Rot.ry p.1 p.2)) b = b) ∧
    (∀ (ps : List (ℚ × ℚ)) (b : Box), composeCS ps = (1, 0) →
      applyRots (ps.map (fun p => Rot.rz p.1 p.2)) b = b) := by
  refine ⟨applyRots_preserves, fun ps b hc => ?_, fun ps b hc => ?_, fun ps b hc => ?_⟩
  · have h := applyRots_rx_acc ps (1, 0) b
    rw [rotateX_one_zero] at h
    rw [h, show ps.foldl (fun a p => (a.1 * p.1 - a.2 * p.2, a.2 * p.1 + a.1 * p.2)) (1, 0)
      = composeCS ps from rfl, hc]
    exact rotateX_one_zero b
  · have h := applyRots_ry_acc ps (1, 0) b
    rw [rotateY_one_zero] at h
    rw [h, show ps.foldl (fun a p => (a.1 * p.1 - a.2 * p.2, a.2 * p.1 + a.1 * p.2)) (1, 0)
      = composeCS ps from rfl, hc]
    exact rotateY_one_zero b
  · have h := applyRots_rz_acc ps (1, 0) b
    rw [rotateZ_one_zero] at h
    rw [h, show ps.foldl (fun a p => (a.1 * p.1 - a.2 * p.2, a.2 * p.1 + a.1 * p.2)) (1, 0)
      = composeCS ps from rfl, hc]
    exact rotateZ_one_zero b

/-- Witness for C8: a 3-4-5 rotation about X then a quarter turn about Z
keeps a unit box's axes orthonormal and center/extents fixed; and a
half turn about X applied twice (angles summing to 2π) restores the box
exactly. -/
theorem boxRotation_spec_witness :
    (orthonormalAxes (applyRots [Rot.rx (3/5) (4/5), Rot.rz 0 1]
        (mkBox ⟨⟨0,0,0⟩, ⟨1,0,0⟩, ⟨1,1,1⟩, 2⟩ ⟨1,2,3⟩ ⟨4,5,6⟩)) ∧
      (applyRots [Rot.rx (3/5) (4/5), Rot.rz 0 1]
        (mkBox ⟨⟨0,0,0⟩, ⟨1,0,0⟩, ⟨1,1,1⟩, 2⟩ ⟨1,2,3⟩ ⟨4,5,6⟩)).pos =
        (mkBox ⟨⟨0,0,0⟩, ⟨1,0,0⟩, ⟨1,1,1⟩, 2⟩ ⟨1,2,3⟩ ⟨4,5,6⟩).pos ∧
      (applyRots [Rot.rx (3/5) (4/5), Rot.rz 0 1]
        (mkBox ⟨⟨0,0,0⟩, ⟨1,0,0⟩, ⟨1,1,1⟩, 2⟩ ⟨1,2,3⟩ ⟨4,5,6⟩)).extents =
        (mkBox ⟨⟨0,0,0⟩, ⟨1,0,0⟩, ⟨1,1,1⟩, 2⟩ ⟨1,2,3⟩ ⟨4,5,6⟩).extents) ∧
    applyRots ([((-1 : ℚ), (0 : ℚ)), ((-1 : ℚ), (0 : ℚ))].map (fun p => Rot.rx p.1 p.2))
      (mkBox ⟨⟨0,0,0⟩, ⟨1,0,0⟩, ⟨1,1,1⟩, 2⟩ ⟨1,2,3⟩ ⟨4,5,6⟩) =
      mkBox ⟨⟨0,0,0⟩, ⟨1,0,0⟩, ⟨1,1,1⟩, 2⟩ ⟨1,2,3⟩ ⟨4,5,6⟩ :=
  ⟨boxRotation_spec.1 [Rot.rx (3/5) (4/5), Rot.rz 0 1] _ (by decide) (by decide),
    boxRotation_spec.2.1 [((-1 : ℚ), (0 : ℚ)), ((-1 : ℚ), (0 : ℚ))] _ (by decide)⟩

/-- C1 (code bug): draw_pixel reuses the variable closest inside the
shadow loop (closest = min(hits)), so after the first light's shadow ray
hits the occluding plane, the SECOND light is shaded from the shadow-ray
hit on the occluder — its position, normal and material — instead of the
nearest primary-ray intersection.  In this scene the primary hit is on
the red plane z = 10 at (0,0,10); light 1 is occluded by the green plane
y = 1, rebinding closest to (0,1,9.2499) with normal (0,1,0); light 2 is
placed so that, shaded from the true primary hit, it contributes nothing
(its direction is parallel to that surface), yet the source adds a green
diffuse term of 28132500/28132501 from the occluder's data.  The
spec-modelled shader that keeps the primary hit fixed returns black. -/
theorem drawPixel_rebinds_closest_across_lights :
    shadePixel ⟨0,0,0⟩ ⟨1,1,1⟩
      [SceneObject.plane (mkPlane ⟨⟨0,0,0⟩, ⟨1,0,0⟩, ⟨1,1,1⟩, 2⟩ ⟨0,0,10⟩ ⟨0,0,-1⟩),
        SceneObject.plane (mkPlane ⟨⟨0,0,0⟩, ⟨0,1,0⟩, ⟨1,0,0⟩, 2⟩ ⟨0,1,0⟩ ⟨0,1,0⟩)]
      [⟨⟨0,8,4⟩, ⟨1,1,1⟩, ⟨1,1,1⟩⟩, ⟨⟨0, 11257/4, 10⟩, ⟨1,1,1⟩, ⟨1,1,1⟩⟩]
      (mkRay ⟨0,0,0⟩ ⟨0,0,1⟩) = ⟨0, 421987500/1654853, 0⟩ ∧
    shadePixelFixedHit ⟨0,0,0⟩ ⟨1,1,1⟩
      [SceneObject.plane (mkPlane ⟨⟨0,0,0⟩, ⟨1,0,0⟩, ⟨1,1,1⟩, 2⟩ ⟨0,0,10⟩ ⟨0,0,-1⟩),
        SceneObject.plane (mkPlane ⟨⟨0,0,0⟩, ⟨0,1,0⟩, ⟨1,0,0⟩, 2⟩ ⟨0,1,0⟩ ⟨0,1,0⟩)]
      [⟨⟨0,8,4⟩, ⟨1,1,1⟩, ⟨1,1,1⟩⟩, ⟨⟨0, 11257/4, 10⟩, ⟨1,1,1⟩, ⟨1,1,1⟩⟩]
      (mkRay ⟨0,0,0⟩ ⟨0,0,1⟩) = ⟨0, 0, 0⟩ ∧
    (⟨0, 421987500/1654853, 0⟩ : Vec3) ≠ (⟨0, 0, 0⟩ : Vec3) := by
  refine ⟨by decide, by decide, by decide⟩

theorem orthoAxes_complete (b : Box) (hb : orthonormalAxes b) (v : Vec3)
    (h0 : v.dot b.a0 = 0) (h1 : v.dot b.a1 = 0) (h2 : v.dot b.a2 = 0) : v = 0 := by
  obtain ⟨ha00, ha11, ha22, ha01, ha02, ha12⟩ := hb
  simp only [Vec3.dot] at ha00 ha11 ha22 ha01 ha02 ha12 h0 h1 h2
  set M : Matrix (Fin 3) (Fin 3) ℚ :=
    Matrix.of ![![b.a0.x, b.a0.y, b.a0.z], ![b.a1.x, b.a1.y, b.a1.z],
      ![b.a2.x, b.a2.y, b.a2.z]] with hM
  set MT : Matrix (Fin 3) (Fin 3) ℚ :=
    Matrix.of ![![b.a0.x, b.a1.x, b.a2.x], ![b.a0.y, b.a1.y, b.a2.y],
      ![b.a0.z, b.a1.z, b.a2.z]] with hMT
  have hMMT : M * MT = 1 := by
    ext i k
    fin_cases i <;> fin_cases k <;>
      simp [hM, hMT, Matrix.mul_apply, Fin.sum_univ_three, Matrix.one_apply] <;>
      first
        | linear_combination ha00
        | linear_combination ha11
        | linear_combination ha22
        | linear_combination ha01
        | linear_combination ha02
        | linear_combination ha12
  have hMTM : MT * M = 1 := Matrix.mul_eq_one_comm.mp hMMT
  set w : Fin 3 → ℚ := ![v.x, v.y, v.z] with hw
  have hMw : M.mulVec w = 0 := by
    funext i
    fin_cases i <;>
      simp [hM, hw, Matrix.mulVec, Matrix.dotProduct, Fin.sum_univ_three] <;>
      first
        | linear_combination h0
        | linear_combination h1
        | linear_combination h2
  have hwz : w = 0 := by
    calc w = Matrix.mulVec 1 w := (Matrix.one_mulVec w).symm
    _ = Matrix.mulVec (MT * M) w := by rw [hMTM]
    _ = MT.mulVec (M.mulVec w) := by rw [Matrix.mulVec_mulVec]
    _ = MT.mulVec 0 := by rw [hMw]
    _ = 0 := Matrix.mulVec_zero _
  have hx : v.x = 0 := by
    have := congrFun hwz 0
    simpa [hw] using this
  have hy : v.y = 0 := by
    have := congrFun hwz 1
    simpa [hw] using this
  have hz : v.z = 0 := by
    have := congrFun hwz 2
    simpa [hw] using this
  ext <;> simp [hx, hy, hz]

theorem Vec3.dot_neg_left (v w : Vec3) : (-v).dot w = -(v.dot w) := by
  simp [Vec3.dot]
  ring

theorem Vec3.dot_neg_right (v w : Vec3) : v.dot (-w) = -(v.dot w) := by
  simp [Vec3.dot]
  ring

theorem boxAxis_unit (b : Box) (hb : orthonormalAxes b) (j : Fin 3) :
    (boxAxis b j).dot (boxAxis b j) = 1 := by
  fin_cases j <;> simp only [boxAxis, Matrix.cons_val_zero, Matrix.cons_val_one,
    Matrix.head_cons, Matrix.cons_val_two, Matrix.tail_cons] <;>
    first
      | exact hb.1
      | exact hb.2.1
      | exact hb.2.2.1

theorem posFace_mem (b : Box) (j : Fin 3) :
    (boxAxis b j, (b.pos + boxExtent b j • boxAxis b j).dot (boxAxis b j)) ∈ boxFaces b := by
  fin_cases j <;> simp [boxAxis, boxExtent, boxFaces]

theorem negFace_mem (b : Box) (j : Fin 3) :
    (-boxAxis b j, (b.pos - boxExtent b j • boxAxis b j).dot (-boxAxis b j)) ∈ boxFaces b := by
  fin_cases j <;> simp [boxAxis, boxExtent, boxFaces]

theorem faceT_pos_face (b : Box) (ray : Ray) (a : Vec3) (e : ℚ) (haa : a.dot a = 1) :
    faceT ray (a, (b.pos + e • a).dot a) = (e - (ray.pos - b.pos).dot a) / (ray.dir.dot a) := by
  unfold faceT
  congr 1
  simp only [Vec3.dot, Vec3.add_x, Vec3.add_y, Vec3.add_z, Vec3.sub_x, Vec3.sub_y,
    Vec3.sub_z, Vec3.smul_x, Vec3.smul_y, Vec3.smul_z] at haa ⊢
  linear_combination e * haa

theorem faceT_neg_face (b : Box) (ray : Ray) (a : Vec3) (e : ℚ) (haa : a.dot a = 1) :
    faceT ray (-a, (b.pos - e • a).dot (-a)) =
      (e + (ray.pos - b.pos).dot a) / (-(ray.dir.dot a)) := by
  unfold faceT
  congr 1
  · simp only [Vec3.dot, Vec3.neg_x, Vec3.neg_y, Vec3.neg_z, Vec3.add_x, Vec3.add_y,
      Vec3.add_z, Vec3.sub_x, Vec3.sub_y, Vec3.sub_z, Vec3.smul_x, Vec3.smul_y,
      Vec3.smul_z] at haa ⊢
    linear_combination e * haa
  · simp only [Vec3.dot, Vec3.neg_x, Vec3.neg_y, Vec3.neg_z]
    ring

theorem lp_dot (b : Box) (ray : Ray) (t : ℚ) (a : Vec3) :
    (b.pos - rayPoint ray t).dot a = -((ray.pos - b.pos).dot a + t * (ray.dir.dot a)) := by
  simp [rayPoint, Vec3.dot]
  ring

theorem exit_time_pos (o d e : ℚ) (ho : |o| < e) (hd : d ≠ 0) :
    0 < (if 0 < d then (e - o) / d else (e + o) / (-d)) := by
  rcases abs_lt.mp ho with ⟨ho1, ho2⟩
  rcases lt_or_gt_of_ne hd with hneg | hpos
  · rw [if_neg (by linarith)]
    apply div_pos (by linarith) (by linarith)
  · rw [if_pos hpos]
    exact div_pos (by linarith) hpos

theorem exit_coord_bound (o d e τi τs : ℚ) (ho : |o| < e) (hτs : 0 ≤ τs) (hd : d ≠ 0)
    (hτi : τi = if 0 < d then (e - o) / d else (e + o) / (-d))
    (hle : τs ≤ τi) : |o + τs * d| ≤ e := by
  rcases abs_lt.mp ho with ⟨ho1, ho2⟩
  rcases lt_or_gt_of_ne hd with hneg | hpos
  · rw [if_neg (by linarith)] at hτi
    have hdn : -d ≠ 0 := by intro hc; apply hd; linarith
    have hdv : τi * d = -(e + o) := by
      rw [hτi]
      field_simp
      ring
    have h1 : τi * d ≤ τs * d := by
      apply mul_le_mul_of_nonpos_right hle (le_of_lt hneg)
    have h2 : τs * d ≤ 0 := mul_nonpos_of_nonneg_of_nonpos hτs (le_of_lt hneg)
    rw [abs_le]
    constructor <;> linarith
  · rw [if_pos hpos] at hτi
    have hdv : τi * d = e - o := by
      rw [hτi]
      field_simp
    have h1 : τs * d ≤ τi * d := mul_le_mul_of_nonneg_right hle (le_of_lt hpos)
    have h2 : 0 ≤ τs * d := mul_nonneg hτs (le_of_lt hpos)
    rw [abs_le]
    constructor <;> linarith

/-- C10: for a Box with orthonormal axes and strictly positive
half-extents, every ray (nonzero direction) whose origin projects
strictly inside all three slabs gets at least one intersection from
Box.ray_test — so the TriangleMesh bounding-box rejection never discards
a shadow ray starting inside the bounding box. -/
theorem boxRayTest_inside_nonempty (b : Box) (ray : Ray)
    (hb : orthonormalAxes b)
    (hex : 0 < b.extents.x) (hey : 0 < b.extents.y) (hez : 0 < b.extents.z)
    (hox : |(ray.pos - b.pos).dot b.a0| < b.extents.x)
    (hoy : |(ray.pos - b.pos).dot b.a1| < b.extents.y)
    (hoz : |(ray.pos - b.pos).dot b.a2| < b.extents.z)
    (hdir : ray.dir ≠ 0) :
    boxRayTest b ray ≠ [] := by
  set o : Fin 3 → ℚ := fun i => (ray.pos - b.pos).dot (boxAxis b i) with ho
  set d : Fin 3 → ℚ := fun i => ray.dir.dot (boxAxis b i) with hd
  have hOE : ∀ i, |o i| < boxExtent b i := by
    intro i
    fin_cases i
    · exact hox
    · exact hoy
    · exact hoz
  have hexists : ∃ i, d i ≠ 0 := by
    by_contra hcon
    push_neg at hcon
    exact hdir (orthoAxes_complete b hb ray.dir (hcon 0) (hcon 1) (hcon 2))
  set τ : Fin 3 → ℚ := fun i =>
    if 0 < d i then (boxExtent b i - o i) / d i else (boxExtent b i + o i) / (-(d i)) with hτ
  set S : Finset (Fin 3) := Finset.univ.filter (fun i => d i ≠ 0) with hS
  have hSne : S.Nonempty := by
    obtain ⟨i, hi⟩ := hexists
    exact ⟨i, by simp [hS, hi]⟩
  obtain ⟨j, hjS, hjmin⟩ := S.exists_min_image τ hSne
  have hdj : d j ≠ 0 := by
    have := hjS
    rw [hS, Finset.mem_filter] at this
    exact this.2
  have hτj_pos : 0 < τ j := by
    rw [hτ]
    exact exit_time_pos (o j) (d j) (boxExtent b j) (hOE j) hdj
  have hbound : ∀ i, |o i + τ j * d i| ≤ boxExtent b i := by
    intro i
    by_cases hdi : d i = 0
    · rw [hdi, mul_zero, add_zero]
      exact le_of_lt (hOE i)
    · have hiS : i ∈ S := by
        rw [hS, Finset.mem_filter]
        exact ⟨Finset.mem_univ i, hdi⟩
      exact exit_coord_bound (o i) (d i) (boxExtent b i) (τ i) (τ j) (hOE i)
        (le_of_lt hτj_pos) hdi (by rw [hτ]) (hjmin i hiS)
  have haa : (boxAxis b j).dot (boxAxis b j) = 1 := boxAxis_unit b hb j
  have hcont : ∀ t : ℚ, t = τ j → boxContains b (rayPoint ray t) := by
    intro t ht
    subst ht
    have hb0 := abs_le.mp (hbound 0)
    have hb1 := abs_le.mp (hbound 1)
    have hb2 := abs_le.mp (hbound 2)
    have hl0 : (b.pos - rayPoint ray (τ j)).dot b.a0 = -(o 0 + τ j * d 0) := by
      rw [show (b.a0 : Vec3) = boxAxis b 0 from rfl, lp_dot, ho, hd]
    have hl1 : (b.pos - rayPoint ray (τ j)).dot b.a1 = -(o 1 + τ j * d 1) := by
      rw [show (b.a1 : Vec3) = boxAxis b 1 from rfl, lp_dot, ho, hd]
    have hl2 : (b.pos - rayPoint ray (τ j)).dot b.a2 = -(o 2 + τ j * d 2) := by
      rw [show (b.a2 : Vec3) = boxAxis b 2 from rfl, lp_dot, ho, hd]
    have he0 : boxExtent b 0 = b.extents.x := rfl
    have he1 : boxExtent b 1 = b.extents.y := rfl
    have he2 : boxExtent b 2 = b.extents.z := rfl
    rw [he0] at hb0
    rw [he1] at hb1
    rw [he2] at hb2
    unfold boxContains
    rw [hl0, hl1, hl2]
    have htol : (0 : ℚ) < 1/10000 := by norm_num
    exact ⟨by linarith [hb0.1, hb0.2], by linarith [hb0.1, hb0.2],
      by linarith [hb1.1, hb1.2], by linarith [hb1.1, hb1.2],
      by linarith [hb2.1, hb2.2], by linarith [hb2.1, hb2.2]⟩
  rcases lt_or_gt_of_ne hdj with hneg | hpos
  · -- d j < 0 : exit through the − face
    have hmem := negFace_mem b j
    have hτj : τ j = if 0 < d j then (boxExtent b j - o j) / d j
        else (boxExtent b j + o j) / (-(d j)) := rfl
    have hoj : o j = (ray.pos - b.pos).dot (boxAxis b j) := rfl
    have hdjj : d j = ray.dir.dot (boxAxis b j) := rfl
    have hfT : faceT ray (-boxAxis b j,
        (b.pos - boxExtent b j • boxAxis b j).dot (-boxAxis b j)) = τ j := by
      rw [faceT_neg_face b ray (boxAxis b j) (boxExtent b j) haa, hτj,
        if_neg (not_lt.mpr (le_of_lt hneg)), hoj, hdjj]
    have hden : ray.dir.dot (-boxAxis b j) ≠ 0 := by
      rw [Vec3.dot_neg_right, ← hdjj]
      intro hc
      exact hdj (by linarith [neg_eq_zero.mp hc])
    have hcand : boxCandidate b ray (-boxAxis b j,
        (b.pos - boxExtent b j • boxAxis b j).dot (-boxAxis b j)) =
        some (mkInter ray b.matl (rayPoint ray (τ j)) (-boxAxis b j) (τ j)) := by
      unfold boxCandidate
      rw [if_neg hden]
      rw [hfT]
      rw [if_pos (le_of_lt hτj_pos)]
      rw [if_pos (hcont (τ j) rfl)]
    have hmemres : mkInter ray b.matl (rayPoint ray (τ j)) (-boxAxis b j) (τ j) ∈
        boxRayTest b ray := by
      unfold boxRayTest
      exact List.mem_filterMap.mpr ⟨_, hmem, hcand⟩
    intro hemp
    rw [hemp] at hmemres
    exact absurd hmemres (List.not_mem_nil _)
  · -- 0 < d j : exit through the + face
    have hmem := posFace_mem b j
    have hτj : τ j = if 0 < d j then (boxExtent b j - o j) / d j
        else (boxExtent b j + o j) / (-(d j)) := rfl
    have hoj : o j = (ray.pos - b.pos).dot (boxAxis b j) := rfl
    have hdjj : d j = ray.dir.dot (boxAxis b j) := rfl
    have hfT : faceT ray (boxAxis b j,
        (b.pos + boxExtent b j • boxAxis b j).dot (boxAxis b j)) = τ j := by
      rw [faceT_pos_face b ray (boxAxis b j) (boxExtent b j) haa, hτj,
        if_pos hpos, hoj, hdjj]
    have hden : ray.dir.dot (boxAxis b j) ≠ 0 := by
      rw [← hdjj]
      exact hdj
    have hcand : boxCandidate b ray (boxAxis b j,
        (b.pos + boxExtent b j • boxAxis b j).dot (boxAxis b j)) =
        some (mkInter ray b.matl (rayPoint ray (τ j)) (boxAxis b j) (τ j)) := by
      unfold boxCandidate
      rw [if_neg hden]
      rw [hfT]
      rw [if_pos (le_of_lt hτj_pos)]
      rw [if_pos (hcont (τ j) rfl)]
    have hmemres : mkInter ray b.matl (rayPoint ray (τ j)) (boxAxis b j) (τ j) ∈
        boxRayTest b ray := by
      unfold boxRayTest
      exact List.mem_filterMap.mpr ⟨_, hmem, hcand⟩
    intro hemp
    rw [hemp] at hmemres
    exact absurd hmemres (List.not_mem_nil _)

/-- Witness for C10: a ray starting at the center of a unit box always
hits it. -/
theorem boxRayTest_inside_nonempty_witness :
    boxRayTest (mkBox ⟨⟨0,0,0⟩, ⟨1,0,0⟩, ⟨1,1,1⟩, 2⟩ ⟨0,0,0⟩ ⟨1,1,1⟩)
      (mkRay ⟨0,0,0⟩ ⟨0,0,1⟩) ≠ [] :=
  boxRayTest_inside_nonempty (mkBox ⟨⟨0,0,0⟩, ⟨1,0,0⟩, ⟨1,1,1⟩, 2⟩ ⟨0,0,0⟩ ⟨1,1,1⟩)
    (mkRay ⟨0,0,0⟩ ⟨0,0,1⟩) (by decide) (by decide) (by decide) (by decide)
    (by decide) (by decide) (by decide) (by decide)
